import Mathlib

/-!
Shallow embedding of the Script Replay & Live Diagnostics Engine of the
elara repository, together with proofs about its claimed behavior.

The embedding covers:

* the legacy animation ticker of `ts/index.ts` (continuous playback via
  `Math.floor(elapsed / MS_PER_STEP)`),
* the decrement-and-retry word search of the run-button click handler in
  `ts/index.ts`,
* the position resolver `codeErrorToDiagnostic` of
  `web/components/editor/editor.tsx`,
* the Execution Controller callbacks (`onRun`, `onCancel`, `onReplayStep`,
  `resetState`, the keyboard listener) of the same file, and
* the Timeline Player (`Replayer`), whose implementation file
  `web/lib/replayer.ts` is not part of the corpus and is therefore
  modelled from the specification.

Machine integers are modelled as `Nat` (offsets and line numbers are
non-negative in CodeMirror) except where a value can go negative in the
source (the word-search offset), where `Int` is used.
-/

namespace Elara

/-! ## Legacy animation ticker (`ts/index.ts`, run-button click handler)

`GAME_SPEED = 2` steps per second, `MS_PER_STEP = 1000 / GAME_SPEED = 500`.
On every PIXI ticker tick the handler executes

```
elapsed += app.ticker.elapsedMS;
const target_step = Math.floor(elapsed / MS_PER_STEP);
if (target_step < replay.length) {
  drawSprites(replay[target_step]);
}
```

We model one tick as a function from the accumulated `elapsed` value and
the tick's `elapsedMS` delta to the new accumulated value plus the list of
frame indices passed to `drawSprites` during that tick (length 0 or 1).
-/

/-- MS_PER_STEP of `ts/index.ts`: `1000 / GAME_SPEED` with `GAME_SPEED = 2`. -/
def MS_PER_STEP : Nat := 500

/-- One invocation of the `animationTicker` callback of `ts/index.ts`:
adds the tick's elapsed milliseconds, computes
`target_step = Math.floor(elapsed / MS_PER_STEP)` and draws the frame at
`target_step` when it is in bounds.  Returns the new accumulated elapsed
time and the indices drawn this tick. -/
def tickerTick (len : Nat) (elapsed : Nat) (dt : Nat) : Nat × List Nat :=
  let e := elapsed + dt
  let t := e / MS_PER_STEP
  (e, if t < len then [t] else [])

/-- Folds `tickerTick` over a list of tick deltas, concatenating the drawn
indices in order. -/
def runTicker (len : Nat) (elapsed : Nat) : List Nat → Nat × List Nat
  | [] => (elapsed, [])
  | dt :: rest =>
    let out := tickerTick len elapsed dt
    let outs := runTicker len out.1 rest
    (outs.1, out.2 ++ outs.2)

/-- Running sums of the accumulated elapsed time after each tick. -/
def prefixSums (e0 : Nat) : List Nat → List Nat
  | [] => []
  | dt :: rest => (e0 + dt) :: prefixSums (e0 + dt) rest

/-! ## Decrement-and-retry word search (`ts/index.ts`, error branch)

```
let start = line.from + e.col;
let range = editor.state.wordAt(start);
while (range === null) {
  start -= 1;
  range = editor.state.wordAt(start);
}
```

The host's `wordAt` lookup is a parameter (a function from an absolute
offset to an optional word range).  The offset is an `Int` because the
loop decrements it without any lower bound.  Since the loop need not
terminate, it is embedded with explicit fuel: `wordSearchFuel w start n`
is the loop's result if it finds a word within `n` lookups, and `none`
if the loop is still running after `n` lookups. -/

/-- Word range as returned by CodeMirror's `wordAt`. -/
structure WordRange where
  wFrom : Int
  wTo : Int
deriving DecidableEq, Repr

/-- Fuel-indexed unfolding of the `while (range === null)` retry loop of
`ts/index.ts`: look up `wordAt start`; on `null` decrement `start` and
retry.  `none` means the loop has not produced a result within `fuel`
lookups. -/
def wordSearchFuel (wordAt : Int → Option WordRange) : Int → Nat → Option WordRange
  | _, 0 => none
  | start, fuel + 1 =>
    match wordAt start with
    | some r => some r
    | none => wordSearchFuel wordAt (start - 1) fuel

/-! ## Position resolver `codeErrorToDiagnostic` (`editor.tsx`, lines 67-94)

The CodeMirror document is modelled as its list of lines (each line a
`String`); consecutive lines are separated by one newline character.
`view.viewportLineBlocks` is modelled by `lineBlocks`, the list of
`(from, length)` pairs of the lines in order. -/

/-- Line blocks of a document starting at absolute offset `from0`:
each line contributes `(start, length)` and the next line starts after
the line plus its newline separator. -/
def lineBlocksFrom (from0 : Nat) : List String → List (Nat × Nat)
  | [] => []
  | l :: rest => (from0, l.length) :: lineBlocksFrom (from0 + l.length + 1) rest

/-- Line blocks (`from`, `length`) of the whole document, mirroring
`view.viewportLineBlocks` with the whole document in the viewport. -/
def lineBlocks (lines : List String) : List (Nat × Nat) :=
  lineBlocksFrom 0 lines

/-- Total document length: lines joined by single newline characters,
so the sum of the line lengths plus one separator between consecutive
lines. -/
def docLen (lines : List String) : Nat :=
  (lines.map String.length).sum + (lines.length - 1)

/-- CodeMirror lint `Diagnostic` (the fields used by the editor):
`from`/`to` are absolute document offsets. -/
structure Diagnostic where
  fromPos : Nat
  toPos : Nat
  message : String
  severity : String
deriving DecidableEq, Repr

/-- Rhai `CodeError` as declared in `editor.tsx`: 1-based line, column,
message.  The interpreter contract guarantees `line ≥ 1`. -/
structure CodeError where
  line : Nat
  col : Nat
  message : String
deriving DecidableEq, Repr

/-- Embedding of `codeErrorToDiagnostic` (`editor.tsx`): look up the line
block `viewportLineBlocks[e.line - 1]`; on a zero-length line return the
zero-width range at the line start, otherwise highlight from the line
start to `line.from + line.length - 1`.  A missing line block (the
indexing fails) is a JavaScript `TypeError` in the source, modelled as
`none`. -/
def codeErrorToDiagnostic (lines : List String) (e : CodeError) : Option Diagnostic :=
  match (lineBlocks lines)[e.line - 1]? with
  | none => none
  | some (f, len) =>
    if len = 0 then
      some ⟨f, f, e.message, "error"⟩
    else
      some ⟨f, f + len - 1, e.message, "error"⟩

/-! ## Editor data model (`editor.tsx`, `elara-lib/pkg` declarations) -/

/-- Line/column position attached to a frame (`LinePos` of `elara-lib/pkg`). -/
structure LinePos where
  line : Nat
  col : Nat
deriving DecidableEq, Repr

/-- One world-state frame with its optional source-line annotation
(`FuzzyStateWithLine` of `elara-lib/pkg`).  The world state itself is
opaque to the engine; it is modelled as an abstract token. -/
structure FuzzyStateWithLine where
  state : Nat
  line_pos : Option LinePos
deriving DecidableEq, Repr

/-- Result of a successful interpreter run (`RunResult` of
`elara-lib/pkg`): the ordered frame sequence plus an opaque outcome tag
used only by the host. -/
structure RunResult where
  outcome : String
  states : List FuzzyStateWithLine
deriving DecidableEq, Repr

/-- Editor state of the Execution Controller
(`type EditorState = "editing" | "running" | "paused"` in `editor.tsx`). -/
inductive EditorState
  | editing
  | running
  | paused
deriving DecidableEq, Repr

/-! ## Timeline Player (`Replayer`)

Modelled from the spec: the implementation file `web/lib/replayer.ts` is
not part of the corpus (only its caller `editor.tsx` is), so the Timeline
Player is modelled from spec §4.2/§4.5: a cursor in `[0, length]`,
`start`/`pause`/`stepForward`/`stepBackward`/`stop`, continuous play that
advances the cursor to `floor(elapsedMs / msPerStep)` relative to the
cursor at the last `start`, a per-frame callback invoked exactly once per
consumed frame index (queued so that coalesced ticks still deliver every
intermediate index), and a completion callback fired exactly once when the
cursor reaches `length` via continuous play or forward stepping.  An
emitted `Ev.frame i` stands for the callback invocation
`(i, states[i])`; `Ev.done` stands for the completion callback. -/

/-- Callback events emitted by the Timeline Player: a per-frame callback
for frame index `i`, or the completion callback. -/
inductive Ev
  | frame (i : Nat)
  | done
deriving DecidableEq, Repr

/-- DEFAULT_STEP_TIME of `web/lib/constants.ts`:
`1000 / DEFAULT_GAME_SPEED` milliseconds with `DEFAULT_GAME_SPEED = 1`. -/
def DEFAULT_STEP_TIME : Nat := 1000

/-- Modelled from the spec: state of the Timeline Player of
`web/lib/replayer.ts` (missing from the corpus).  `cursor` counts the
frames already delivered; `base`/`elapsed` implement continuous play
relative to the cursor at the last `start()`; `doneFired` makes the
completion callback fire at most once; `stopped` makes every later
operation a no-op. -/
structure RepState where
  states : List FuzzyStateWithLine
  cursor : Nat
  running : Bool
  stopped : Bool
  doneFired : Bool
  base : Nat
  elapsed : Nat
deriving DecidableEq, Repr

namespace Replayer

/-- Construction (`new Replayer(states, onStep, onDone)`): cursor 0,
not running, nothing fired. -/
def init (states : List FuzzyStateWithLine) : RepState :=
  ⟨states, 0, false, false, false, 0, 0⟩

/-- Number of frames of the played sequence. -/
def length (s : RepState) : Nat :=
  s.states.length

/-- Queued per-frame callbacks for the consumed indices
`a, a+1, …, a+cnt-1`. -/
def emitFrames (a cnt : Nat) : List Ev :=
  (List.range' a cnt).map Ev.frame

/-- Modelled from the spec: `start()` begins or resumes continuous
playback from the current cursor; no-op if already running or stopped. -/
def start (s : RepState) : RepState × List Ev :=
  if s.stopped || s.running then (s, [])
  else ({ s with running := true, base := s.cursor, elapsed := 0 }, [])

/-- Modelled from the spec: `pause()` halts ticking without resetting the
cursor; no-op if not running or stopped; never emits a callback. -/
def pause (s : RepState) : RepState × List Ev :=
  if s.stopped || !s.running then (s, [])
  else ({ s with running := false }, [])

/-- Modelled from the spec: `stop()` cancels ticking and releases the
sequence; after `stop()` no further callbacks are ever invoked; `stop()`
itself never emits a callback. -/
def stop (s : RepState) : RepState × List Ev :=
  ({ s with running := false, stopped := true }, [])

/-- Modelled from the spec: `stepForward()` moves the cursor one frame
forward, clamped at `length` (a no-op there); it delivers the consumed
frame synchronously and fires the completion callback when the cursor
reaches `length` for the first time. -/
def stepForward (s : RepState) : RepState × List Ev :=
  if s.stopped then (s, [])
  else if s.cursor < length s then
    let c := s.cursor + 1
    if c = length s ∧ s.doneFired = false then
      ({ s with cursor := c, doneFired := true }, [Ev.frame s.cursor, Ev.done])
    else
      ({ s with cursor := c }, [Ev.frame s.cursor])
  else (s, [])

/-- Modelled from the spec: `stepBackward()` moves the cursor one frame
back, clamped at `0` (a no-op there); it delivers the frame at the new
position synchronously and never fires the completion callback. -/
def stepBackward (s : RepState) : RepState × List Ev :=
  if s.stopped then (s, [])
  else if 0 < s.cursor then
    ({ s with cursor := s.cursor - 1 }, [Ev.frame (s.cursor - 1)])
  else (s, [])

/-- Modelled from the spec: one host clock tick during continuous play.
The cursor advances to `base + floor(elapsed / msPerStep)` (clamped to
`length`, never backwards), the per-frame callback is queued once for
every index between the previous and the new cursor value, and the
completion callback fires exactly once when the cursor reaches `length`.
Ignored when paused or stopped. -/
def tick (dt : Nat) (s : RepState) : RepState × List Ev :=
  if s.stopped || !s.running then (s, [])
  else
    let e := s.elapsed + dt
    let target := min (s.base + e / DEFAULT_STEP_TIME) (length s)
    let c := max s.cursor target
    let evs := emitFrames s.cursor (c - s.cursor)
    if c = length s ∧ s.doneFired = false then
      ({ s with elapsed := e, cursor := c, doneFired := true, running := false },
        evs ++ [Ev.done])
    else
      ({ s with elapsed := e, cursor := c }, evs)

/-- Control-surface and clock operations that can reach the player. -/
inductive Op
  | start
  | pause
  | stepForward
  | stepBackward
  | stop
  | tick (dt : Nat)
deriving DecidableEq, Repr

/-- Applies one operation to the player state. -/
def applyOp : Op → RepState → RepState × List Ev
  | .start, s => start s
  | .pause, s => pause s
  | .stepForward, s => stepForward s
  | .stepBackward, s => stepBackward s
  | .stop, s => stop s
  | .tick dt, s => tick dt s

/-- Applies a list of operations in order, concatenating the emitted
callback events. -/
def runOps (s : RepState) : List Op → RepState × List Ev
  | [] => (s, [])
  | op :: rest =>
    let o := applyOp op s
    let r := runOps o.1 rest
    (r.1, o.2 ++ r.2)

/-- Number of completion-callback events in an event list. -/
def countDone : List Ev → Nat
  | [] => 0
  | .done :: t => countDone t + 1
  | .frame _ :: t => countDone t

end Replayer

/-! ## Execution Controller (`editor.tsx`, `Editor` component)

The React component state relevant to the engine: `state`, `activeLine`,
`codeError`, `stepIndex`, `numSteps`, the `replayer` ref and the current
document text.  Interpreter invocations (`props.runScript`) are modelled
by a function from the script text to a `RunScriptOutcome` describing
what the call returned or threw. -/

/-- Controller-visible state of the `Editor` component. -/
structure EditorModel where
  editorState : EditorState
  activeLine : Option LinePos
  codeError : Option CodeError
  stepIndex : Nat
  numSteps : Nat
  replayer : Option RepState
  doc : String
deriving DecidableEq, Repr

/-- What one invocation of `props.runScript(script)` did: returned a
`RunResult`, threw a `RhaiError` (whose `line` field may be absent),
threw another `Error`, or threw a non-`Error` value (modelled by an
opaque tag). -/
inductive RunScriptOutcome
  | ok (result : RunResult)
  | throwRhai (line : Option Nat) (col : Nat) (message : String)
  | throwOtherError (message : String)
  | throwNonError (tag : Nat)
deriving DecidableEq, Repr

/-- How `onRun` disposed of the interpreter invocation: set an inline
diagnostic, called `props.onScriptError`, rethrew a non-`Error` value,
or completed the success path. -/
inductive CatchOutcome
  | handledDiagnostic
  | handledScriptError (message : String)
  | rethrown (tag : Nat)
  | ranOk
deriving DecidableEq, Repr

/-- Externally visible effect of a run request: either the interpreter
was never invoked, or it was invoked with the given script text and the
invocation ended in the given `CatchOutcome`. -/
inductive RunEffect
  | notInvoked
  | invoked (script : String) (outcome : CatchOutcome)
deriving DecidableEq, Repr

/-- Embedding of `resetState` (`editor.tsx`): state `editing`, active
line and code error cleared, step index and step count zeroed.  The
`replayer` ref is not touched. -/
def resetState (m : EditorModel) : EditorModel :=
  { m with
    editorState := .editing
    activeLine := none
    codeError := none
    stepIndex := 0
    numSteps := 0 }

/-- Embedding of `onRun` (`editor.tsx`): reset the state, read the
current script, invoke the interpreter; on a `RhaiError` with a truthy
`line` set the inline `codeError`; on any other `Error` call
`props.onScriptError`; rethrow non-`Error` values; on success store the
step count, stop and replace the replayer with a fresh one over the
returned frames, and enter `paused`. -/
def onRun (runScript : String → RunScriptOutcome) (m : EditorModel) :
    EditorModel × RunEffect :=
  let m0 := resetState m
  let script := m.doc
  match runScript script with
  | .throwRhai line col msg =>
    match line with
    | some l =>
      if l ≠ 0 then
        ({ m0 with codeError := some ⟨l, col, msg⟩ },
          .invoked script .handledDiagnostic)
      else (m0, .invoked script (.handledScriptError msg))
    | none => (m0, .invoked script (.handledScriptError msg))
  | .throwOtherError msg => (m0, .invoked script (.handledScriptError msg))
  | .throwNonError tag => (m0, .invoked script (.rethrown tag))
  | .ok result =>
    ({ m0 with
        stepIndex := 0
        numSteps := result.states.length
        replayer := some (Replayer.init result.states)
        editorState := .paused },
      .invoked script .ranOk)

/-- Embedding of `onCancel` (`editor.tsx`): reset the state, pass the
current script text to `props.onCancel`, and stop the replayer if one
exists.  The second component is the script text handed to the host
cancellation callback. -/
def onCancel (m : EditorModel) : EditorModel × Option String :=
  let m0 := resetState m
  ({ m0 with replayer := m0.replayer.map fun r => (Replayer.stop r).1 },
    some m.doc)

/-- Embedding of `onReplayStep` (`editor.tsx`): record the new step
index; move the active-line highlight only when the frame carries a
`line_pos` annotation.  (`props.onStep` passes the frame through to the
host unchanged and does not touch this state.) -/
def onReplayStep (i : Nat) (step : FuzzyStateWithLine) (m : EditorModel) :
    EditorModel :=
  let m1 := { m with stepIndex := i }
  match step.line_pos with
  | some lp => { m1 with activeLine := some lp }
  | none => m1

/-- Embedding of the handler built by `makeOnReplayDoneHandler`
(`editor.tsx`): on completion reset the state and notify the host with
the script and result. -/
def onReplayDone (script : String) (m : EditorModel) : EditorModel × Option String :=
  (resetState m, some script)

/-- Keyboard keys distinguished by the `keydown` listener. -/
inductive Key
  | enter
  | escape
  | other
deriving DecidableEq, Repr

/-- Control requests the `keydown` listener can issue. -/
inductive ControlAction
  | runAction
  | playAction
  | cancelAction
deriving DecidableEq, Repr

/-- Embedding of the `keydown` listener of `editor.tsx`: with editor
focus, a modifier plus Enter runs and then plays, but only in state
`editing`; Escape cancels, but only in state `running`.  The returned
list is the sequence of control requests issued. -/
def keyListener (hasFocus : Bool) (modifier : Bool) (key : Key)
    (state : EditorState) : List ControlAction :=
  if !hasFocus then []
  else
    (if modifier = true ∧ key = Key.enter ∧ state = .editing then
      [ControlAction.runAction, ControlAction.playAction]
    else []) ++
    (if key = Key.escape ∧ state = .running then [ControlAction.cancelAction]
    else [])

/-- Modelled from the spec: the run affordance of
`web/components/editor/control_bar.tsx` (ControlBar, missing from the
corpus).  Per spec §4.4 and §7 (`InternalStateViolation`), a run request
while the controller is not in `editing` is ignored as a no-op: the
interpreter is not invoked and no state changes. -/
def requestRun (runScript : String → RunScriptOutcome) (m : EditorModel) :
    EditorModel × RunEffect :=
  if m.editorState = .editing then onRun runScript m
  else (m, .notInvoked)

/-! ## Helper lemmas -/

/-- Every line block lies within the document: its end offset is bounded
by the block list's base offset plus the document length. -/
theorem lineBlocksFrom_bound (lines : List String) :
    ∀ from0 p, p ∈ lineBlocksFrom from0 lines → p.1 + p.2 ≤ from0 + docLen lines := by
  induction lines with
  | nil => intro f p h; simp [lineBlocksFrom] at h
  | cons l rest ih =>
    intro f p h
    simp only [lineBlocksFrom, List.mem_cons] at h
    rcases h with rfl | h
    · simp [docLen]
      omega
    · cases rest with
      | nil => simp [lineBlocksFrom] at h
      | cons r rs =>
        have hb := ih (f + l.length + 1) p h
        simp only [docLen, List.map_cons, List.sum_cons, List.length_cons] at hb ⊢
        omega

/-- Every line block of a document ends within the document. -/
theorem mem_lineBlocks_bound (lines : List String) (p : Nat × Nat)
    (h : p ∈ lineBlocks lines) : p.1 + p.2 ≤ docLen lines := by
  have := lineBlocksFrom_bound lines 0 p h
  omega

namespace Replayer

/-- Counting completion events distributes over concatenation. -/
theorem countDone_append (l1 l2 : List Ev) :
    countDone (l1 ++ l2) = countDone l1 + countDone l2 := by
  induction l1 with
  | nil => simp [countDone]
  | cons a t ih =>
    cases a with
    | frame i => simp [countDone, ih]
    | done => simp [countDone, ih]; omega

/-- Queued per-frame callbacks contain no completion event. -/
theorem countDone_emitFrames (a cnt : Nat) : countDone (emitFrames a cnt) = 0 := by
  induction cnt generalizing a with
  | zero => simp [emitFrames, countDone]
  | succ n ih =>
    rw [emitFrames, List.range'_succ]
    simpa [countDone, emitFrames] using ih (a + 1)

/-- The completion event is never among queued per-frame callbacks. -/
theorem done_not_mem_emitFrames (a cnt : Nat) : Ev.done ∉ emitFrames a cnt := by
  simp [emitFrames]

/-- Once the completion callback has fired, the `doneFired` flag stays
set across every operation. -/
theorem applyOp_doneFired_mono (op : Op) (s : RepState) (h : s.doneFired = true) :
    (applyOp op s).1.doneFired = true := by
  cases op <;> simp only [applyOp, start, pause, stop, stepForward, stepBackward, tick] <;>
    (try split_ifs) <;> simp_all

/-- One operation emits the completion callback exactly when it switches
the `doneFired` flag on, and then exactly once. -/
theorem countDone_applyOp (op : Op) (s : RepState) :
    countDone (applyOp op s).2 =
      if (applyOp op s).1.doneFired = true ∧ s.doneFired = false then 1 else 0 := by
  cases op <;> simp only [applyOp, start, pause, stop, stepForward, stepBackward, tick] <;>
    (try split_ifs) <;> simp_all [countDone, countDone_append, countDone_emitFrames]

/-- The `doneFired` flag stays set across any sequence of operations. -/
theorem runOps_doneFired_mono (ops : List Op) (s : RepState) (h : s.doneFired = true) :
    (runOps s ops).1.doneFired = true := by
  induction ops generalizing s with
  | nil => simpa [runOps] using h
  | cons op rest ih =>
    simp only [runOps]
    exact ih _ (applyOp_doneFired_mono op s h)

/-- A sequence of operations emits the completion callback exactly when
it switches the `doneFired` flag on, and then exactly once. -/
theorem countDone_runOps (ops : List Op) (s : RepState) :
    countDone (runOps s ops).2 =
      if (runOps s ops).1.doneFired = true ∧ s.doneFired = false then 1 else 0 := by
  induction ops generalizing s with
  | nil => simp [runOps, countDone]
  | cons op rest ih =>
    simp only [runOps, countDone_append]
    rw [countDone_applyOp, ih]
    by_cases h1 : s.doneFired = true
    · have m1 := applyOp_doneFired_mono op s h1
      have m2 := runOps_doneFired_mono rest _ m1
      simp [h1, m1, m2]
    · by_cases h2 : (applyOp op s).1.doneFired = true
      · have m2 := runOps_doneFired_mono rest _ h2
        simp [h1, h2, m2]
      · simp only [Bool.not_eq_true] at h1 h2
        simp [h1, h2]

/-- A stopped, non-running player ignores every further operation and
emits no callback (spec §4.2: after `stop()` the player must not invoke
further callbacks). -/
theorem stopped_applyOp (s : RepState) (h1 : s.stopped = true)
    (h2 : s.running = false) (op : Op) : applyOp op s = (s, []) := by
  obtain ⟨sts, c, r, stp, d, b, e⟩ := s
  simp only at h1 h2
  subst h1; subst h2
  cases op <;> simp [applyOp, start, pause, stop, stepForward, stepBackward, tick]

end Replayer

/-! ## Claim theorems -/

/-- Claim C5: when the resolved error line is zero-length (a blank line),
`codeErrorToDiagnostic` returns a zero-width text range at the line's
start offset (`from = to =` line start), paired with the error message
and severity `"error"`, and it does so totally (no loop, no
out-of-bounds access, no exception). -/
theorem c5_blank_line_zero_width (lines : List String) (e : CodeError) (f : Nat)
    (h : (lineBlocks lines)[e.line - 1]? = some (f, 0)) :
    codeErrorToDiagnostic lines e = some ⟨f, f, e.message, "error"⟩ := by
  unfold codeErrorToDiagnostic
  rw [h]
  simp

/-- Witness for C5: the blank first line of the document `["", "x"]`
resolves to the zero-width range at offset 0. -/
theorem c5_blank_line_zero_width_witness :
    codeErrorToDiagnostic ["", "x"] ⟨1, 0, "m"⟩ = some ⟨0, 0, "m", "error"⟩ :=
  c5_blank_line_zero_width ["", "x"] ⟨1, 0, "m"⟩ 0 (by decide)

/-- Claim C9: every text range produced by `codeErrorToDiagnostic`
satisfies `from ≤ to`, and both endpoints lie within the bounds of the
current document (`from ≥ 0` holds by the `Nat` offset model; `to ≤`
document length is proved here). -/
theorem c9_diagnostic_in_bounds (lines : List String) (e : CodeError) (d : Diagnostic)
    (h : codeErrorToDiagnostic lines e = some d) :
    d.fromPos ≤ d.toPos ∧ d.toPos ≤ docLen lines := by
  unfold codeErrorToDiagnostic at h
  cases hb : (lineBlocks lines)[e.line - 1]? with
  | none => rw [hb] at h; exact absurd h (by simp)
  | some p =>
    rw [hb] at h
    obtain ⟨f, len⟩ := p
    have hmem : (f, len) ∈ lineBlocks lines := List.getElem?_mem hb
    have hbd := mem_lineBlocks_bound lines (f, len) hmem
    simp only at hbd
    dsimp only at h
    by_cases hlen : len = 0
    · rw [if_pos hlen] at h
      cases h
      subst hlen
      simp only
      omega
    · rw [if_neg hlen] at h
      cases h
      simp only
      omega

/-- Witness for C9: the range produced for an error on line 1 of the
document `["ab", "", "xy"]` is within bounds. -/
theorem c9_diagnostic_in_bounds_witness :
    (⟨0, 1, "m", "error"⟩ : Diagnostic).fromPos ≤ (⟨0, 1, "m", "error"⟩ : Diagnostic).toPos ∧
    (⟨0, 1, "m", "error"⟩ : Diagnostic).toPos ≤ docLen ["ab", "", "xy"] :=
  c9_diagnostic_in_bounds ["ab", "", "xy"] ⟨1, 0, "m"⟩ ⟨0, 1, "m", "error"⟩ (by decide)

/-- Claim C10: `onReplayStep` always records the delivered step index,
moves the active-line highlight when the frame carries a source-line
annotation, and leaves the highlight untouched (neither cleared nor
moved) when the frame carries none. -/
theorem c10_highlight_only_on_line_pos (i : Nat) (step : FuzzyStateWithLine)
    (m : EditorModel) :
    (onReplayStep i step m).stepIndex = i ∧
    (step.line_pos = none → (onReplayStep i step m).activeLine = m.activeLine) ∧
    (∀ lp, step.line_pos = some lp → (onReplayStep i step m).activeLine = some lp) := by
  cases h : step.line_pos <;> simp [onReplayStep, h]

/-- Witness for C10: a frame without an annotation advances the step
index to 4 and keeps the previous highlight (line 2). -/
theorem c10_highlight_only_on_line_pos_witness :
    (onReplayStep 4 ⟨9, none⟩
        ⟨.running, some ⟨2, 3⟩, none, 1, 5, none, "s"⟩).stepIndex = 4 ∧
    (onReplayStep 4 ⟨9, none⟩
        ⟨.running, some ⟨2, 3⟩, none, 1, 5, none, "s"⟩).activeLine = some ⟨2, 3⟩ :=
  ⟨(c10_highlight_only_on_line_pos 4 ⟨9, none⟩
      ⟨.running, some ⟨2, 3⟩, none, 1, 5, none, "s"⟩).1,
    (c10_highlight_only_on_line_pos 4 ⟨9, none⟩
      ⟨.running, some ⟨2, 3⟩, none, 1, 5, none, "s"⟩).2.1 rfl⟩

/-- Claim C8: `onCancel`, from any state, returns the controller to
`editing`, clears the active-line highlight and the inline diagnostic,
hands the current in-progress script text to the host cancellation
callback, and stops the Timeline Player: the stored player is the stopped
one, and a stopped player ignores every further operation without
emitting any callback. -/
theorem c8_cancel_resets (m : EditorModel) :
    (onCancel m).1.editorState = .editing ∧
    (onCancel m).1.activeLine = none ∧
    (onCancel m).1.codeError = none ∧
    (onCancel m).2 = some m.doc ∧
    (onCancel m).1.replayer = m.replayer.map (fun r => (Replayer.stop r).1) ∧
    (∀ r, (onCancel m).1.replayer = some r →
      r.stopped = true ∧ ∀ op, Replayer.applyOp op r = (r, [])) := by
  refine ⟨rfl, rfl, rfl, rfl, rfl, ?_⟩
  intro r hr
  have heq : m.replayer.map (fun x => (Replayer.stop x).1) = some r := by
    rw [← hr]; rfl
  cases hm : m.replayer with
  | none => rw [hm] at heq; simp at heq
  | some r0 =>
    rw [hm] at heq
    simp only [Option.map_some'] at heq
    cases heq
    exact ⟨rfl, fun op => Replayer.stopped_applyOp _ rfl rfl op⟩

/-- Witness for C8: cancelling a running controller with a live player
over one frame returns to `editing`, reports the script `"abc"`, and the
stopped player ignores a `start` request. -/
theorem c8_cancel_resets_witness :
    (onCancel ⟨.running, some ⟨1, 2⟩, none, 1, 2,
        some (Replayer.init [⟨5, none⟩]), "abc"⟩).1.editorState = .editing ∧
    (onCancel ⟨.running, some ⟨1, 2⟩, none, 1, 2,
        some (Replayer.init [⟨5, none⟩]), "abc"⟩).2 = some "abc" ∧
    Replayer.applyOp .start ((Replayer.stop (Replayer.init [⟨5, none⟩])).1) =
      ((Replayer.stop (Replayer.init [⟨5, none⟩])).1, []) :=
  ⟨(c8_cancel_resets _).1, (c8_cancel_resets _).2.2.2.1,
    ((c8_cancel_resets ⟨.running, some ⟨1, 2⟩, none, 1, 2,
        some (Replayer.init [⟨5, none⟩]), "abc"⟩).2.2.2.2.2 _ (by decide)).2 .start⟩

/-- Claim C3: a run request in state `editing` invokes the interpreter
with the current script text; on success the controller clears the
line highlight and the diagnostic, builds a new Timeline Player over the
returned frame sequence, records the step count, and enters `paused`; on
a positioned interpreter error it records the error (from which the
displayed text range is derived) and remains in `editing`. -/
theorem c3_run_in_editing (m : EditorModel) (result : RunResult) (l c : Nat)
    (msg : String) (_hs : m.editorState = .editing) (hl : l ≠ 0) :
    ((onRun (fun _ => .ok result) m).1.editorState = .paused ∧
      (onRun (fun _ => .ok result) m).1.activeLine = none ∧
      (onRun (fun _ => .ok result) m).1.codeError = none ∧
      (onRun (fun _ => .ok result) m).1.replayer = some (Replayer.init result.states) ∧
      (onRun (fun _ => .ok result) m).1.numSteps = result.states.length ∧
      (onRun (fun _ => .ok result) m).1.stepIndex = 0 ∧
      (onRun (fun _ => .ok result) m).2 = .invoked m.doc .ranOk) ∧
    ((onRun (fun _ => .throwRhai (some l) c msg) m).1.editorState = .editing ∧
      (onRun (fun _ => .throwRhai (some l) c msg) m).1.codeError = some ⟨l, c, msg⟩ ∧
      (onRun (fun _ => .throwRhai (some l) c msg) m).1.activeLine = none ∧
      (onRun (fun _ => .throwRhai (some l) c msg) m).2 =
        .invoked m.doc .handledDiagnostic) := by
  unfold onRun resetState
  simp [hl]

/-- Witness for C3: running from a dirty `editing` state either enters
`paused` on success or records the positioned error and stays in
`editing`. -/
theorem c3_run_in_editing_witness :
    (onRun (fun _ => .ok ⟨"ok", [⟨3, some ⟨1, 0⟩⟩]⟩)
        ⟨.editing, some ⟨9, 9⟩, some ⟨1, 1, "old"⟩, 3, 7, none, "x=1"⟩).1.editorState =
      .paused ∧
    (onRun (fun _ => .throwRhai (some 2) 5 "e")
        ⟨.editing, some ⟨9, 9⟩, some ⟨1, 1, "old"⟩, 3, 7, none, "x=1"⟩).1.codeError =
      some ⟨2, 5, "e"⟩ :=
  ⟨(c3_run_in_editing ⟨.editing, some ⟨9, 9⟩, some ⟨1, 1, "old"⟩, 3, 7, none, "x=1"⟩
      ⟨"ok", [⟨3, some ⟨1, 0⟩⟩]⟩ 2 5 "e" rfl (by decide)).1.1,
    (c3_run_in_editing ⟨.editing, some ⟨9, 9⟩, some ⟨1, 1, "old"⟩, 3, 7, none, "x=1"⟩
      ⟨"ok", [⟨3, some ⟨1, 0⟩⟩]⟩ 2 5 "e" rfl (by decide)).2.2.1⟩

/-- Claim C4: a run request issued while the controller is not in
`editing` is ignored as a no-op: the ControlBar guard (modelled from the
spec) neither invokes the interpreter nor changes any state, and the
keyboard listener of `editor.tsx` issues no run action in such states. -/
theorem c4_run_ignored_outside_editing (m : EditorModel)
    (runScript : String → RunScriptOutcome) (h : m.editorState ≠ .editing) :
    requestRun runScript m = (m, .notInvoked) ∧
    ∀ focus mod key, ControlAction.runAction ∉ keyListener focus mod key m.editorState := by
  constructor
  · unfold requestRun
    rw [if_neg h]
  · intro focus mod key
    cases hst : m.editorState with
    | editing => exact absurd hst h
    | running => cases focus <;> cases mod <;> cases key <;> decide
    | paused => cases focus <;> cases mod <;> cases key <;> decide

/-- Witness for C4: with the controller `paused`, a run request leaves
everything unchanged without invoking the interpreter, and Ctrl+Enter
issues no run action. -/
theorem c4_run_ignored_outside_editing_witness :
    requestRun (fun _ => .ok ⟨"", []⟩) ⟨.paused, none, none, 0, 0, none, "s"⟩ =
      (⟨.paused, none, none, 0, 0, none, "s"⟩, .notInvoked) ∧
    ControlAction.runAction ∉
      keyListener true true Key.enter
        (⟨.paused, none, none, 0, 0, none, "s"⟩ : EditorModel).editorState :=
  ⟨(c4_run_ignored_outside_editing ⟨.paused, none, none, 0, 0, none, "s"⟩
      (fun _ => .ok ⟨"", []⟩) (by decide)).1,
    (c4_run_ignored_outside_editing ⟨.paused, none, none, 0, 0, none, "s"⟩
      (fun _ => .ok ⟨"", []⟩) (by decide)).2 true true Key.enter⟩

/-- Counterexample to claim C7 as stated: the interpreter invocation can
throw a non-`Error` value (here the opaque tag 7); `onRun` rethrows it
out of the run request instead of handling it, so not every thrown value
is handled. -/
theorem c7_nonerror_rethrow_counterexample :
    (onRun (fun _ => .throwNonError 7)
        ⟨.editing, none, none, 0, 0, none, "boom"⟩).2 =
      .invoked "boom" (.rethrown 7) := by
  decide

/-- Claim C7 (amended): a `RhaiError` with a truthy line becomes an
inline diagnostic; a `RhaiError` without a line and any other `Error`
are surfaced to the host error handler; in all these cases the
controller stays in `editing` with the replayer unchanged (no visible
replay).  A thrown non-`Error` value, however, is rethrown out of the
run request. -/
theorem c7_error_handling_amended (m : EditorModel) (l c : Nat) (msg : String)
    (tag : Nat) :
    (l ≠ 0 →
      (onRun (fun _ => .throwRhai (some l) c msg) m).1.editorState = .editing ∧
      (onRun (fun _ => .throwRhai (some l) c msg) m).1.replayer = m.replayer ∧
      (onRun (fun _ => .throwRhai (some l) c msg) m).2 =
        .invoked m.doc .handledDiagnostic) ∧
    ((onRun (fun _ => .throwRhai none c msg) m).1.editorState = .editing ∧
      (onRun (fun _ => .throwRhai none c msg) m).1.replayer = m.replayer ∧
      (onRun (fun _ => .throwRhai none c msg) m).2 =
        .invoked m.doc (.handledScriptError msg)) ∧
    ((onRun (fun _ => .throwOtherError msg) m).1.editorState = .editing ∧
      (onRun (fun _ => .throwOtherError msg) m).1.replayer = m.replayer ∧
      (onRun (fun _ => .throwOtherError msg) m).2 =
        .invoked m.doc (.handledScriptError msg)) ∧
    (onRun (fun _ => .throwNonError tag) m).2 = .invoked m.doc (.rethrown tag) := by
  refine ⟨?_, ?_, ?_, ?_⟩
  · intro hl
    unfold onRun resetState
    simp [hl]
  · unfold onRun resetState
    simp
  · unfold onRun resetState
    simp
  · unfold onRun resetState
    simp

/-- Witness for C7 (amended): at concrete inputs, the positioned error is
handled as a diagnostic and the host-level error is handled by the error
callback, both staying in `editing`. -/
theorem c7_error_handling_amended_witness :
    (onRun (fun _ => .throwRhai (some 1) 0 "bad")
        ⟨.editing, none, none, 0, 0, none, "d"⟩).2 =
      .invoked "d" .handledDiagnostic ∧
    (onRun (fun _ => .throwOtherError "oops")
        ⟨.editing, none, none, 0, 0, none, "d"⟩).1.editorState = .editing :=
  ⟨((c7_error_handling_amended ⟨.editing, none, none, 0, 0, none, "d"⟩ 1 0 "bad" 0).1
      (by decide)).2.2,
    (c7_error_handling_amended ⟨.editing, none, none, 0, 0, none, "d"⟩ 1 0 "oops" 0).2.2.1.1⟩

/-- Counterexample to claim C1 as stated: with a 3-frame sequence and
`msPerStep = 500`, a single coalesced tick of 1000 ms moves the target
from 0 to 2 but the `animationTicker` callback of `ts/index.ts` draws
only frame 2 — the intermediate index 1 is skipped, so the per-frame
callback is not invoked for every index between the previous and new
cursor value. -/
theorem c1_ticker_skips_counterexample :
    (tickerTick 3 0 1000).2 = [2] ∧ (1 : Nat) ∉ (tickerTick 3 0 1000).2 := by
  decide

/-- Helper: when the word lookup finds no word at any offset, the retry
loop produces no result no matter how long it runs. -/
theorem wordSearchFuel_allNone (start : Int) (fuel : Nat) :
    wordSearchFuel (fun _ => none) start fuel = none := by
  induction fuel generalizing start with
  | zero => rfl
  | succ n ih => simpa [wordSearchFuel] using ih (start - 1)

/-- Claim C2 is violated by the code (code bug): the retry loop of
`ts/index.ts` has no guard at the start of the document.  First, on a
document whose `wordAt` never finds a word (only punctuation, e.g.
`"+++"`), the loop starting at offset 2 produces no result under any
amount of fuel — it never stops, instead of stopping at offset 0.
Second, with a word lying at negative offsets only, the loop walks
straight past offset 0 and returns that word, which is impossible for a
loop that stops at the start of the document. -/
theorem c2_word_search_no_stop_at_zero :
    (∀ fuel : Nat, wordSearchFuel (fun _ => none) 2 fuel = none) ∧
    wordSearchFuel (fun i => if i = -5 then some ⟨-5, -3⟩ else none) 2 9 =
      some ⟨-5, -3⟩ := by
  constructor
  · intro fuel
    exact wordSearchFuel_allNone 2 fuel
  · decide

/-- Helper: each element of `prefixSums e0 dts` is at least `e0`. -/
theorem le_of_mem_prefixSums (dts : List Nat) :
    ∀ (e0 x : Nat), x ∈ prefixSums e0 dts → e0 ≤ x := by
  induction dts with
  | nil => intro e0 x hx; simp [prefixSums] at hx
  | cons dt rest ih =>
    intro e0 x hx
    simp only [prefixSums, List.mem_cons] at hx
    rcases hx with rfl | hx
    · omega
    · have := ih (e0 + dt) x hx
      omega

/-- Helper: the accumulated elapsed values are non-decreasing. -/
theorem sorted_prefixSums (dts : List Nat) :
    ∀ e0 : Nat, List.Sorted (· ≤ ·) (prefixSums e0 dts) := by
  induction dts with
  | nil => intro e0; simp [prefixSums]
  | cons dt rest ih =>
    intro e0
    rw [prefixSums, List.sorted_cons]
    exact ⟨fun b hb => le_of_mem_prefixSums rest (e0 + dt) b hb, ih (e0 + dt)⟩

/-- Helper: characterization of the legacy ticker's drawn indices — one
candidate `floor(elapsed / MS_PER_STEP)` per tick, kept only while below
the sequence length. -/
theorem runTicker_emits (len : Nat) (dts : List Nat) :
    ∀ e0 : Nat,
      (runTicker len e0 dts).2 =
        ((prefixSums e0 dts).map (fun e => e / MS_PER_STEP)).filter
          (fun t => decide (t < len)) := by
  induction dts with
  | nil => intro e0; rfl
  | cons dt rest ih =>
    intro e0
    simp only [runTicker, tickerTick, prefixSums, List.map_cons, List.filter_cons]
    rw [ih (e0 + dt)]
    by_cases h : (e0 + dt) / MS_PER_STEP < len
    · simp [h]
    · simp [h]

/-- Claim C1 (amended): on each host clock tick the legacy ticker of
`ts/index.ts` adds the tick's elapsed milliseconds and computes
`target = floor(elapsed / msPerStep)`; it invokes the draw callback at
most once per tick — with the target index only, and only while the
target is below the sequence length.  Drawn indices never decrease
across ticks, but indices between the previous and new target are
skipped when ticks coalesce, and an index may repeat. -/
theorem c1_ticker_amended (len e0 : Nat) (dts : List Nat) :
    (runTicker len e0 dts).2 =
      ((prefixSums e0 dts).map (fun e => e / MS_PER_STEP)).filter
        (fun t => decide (t < len)) ∧
    List.Sorted (· ≤ ·) (runTicker len e0 dts).2 ∧
    ∀ len2 e dt : Nat, (tickerTick len2 e dt).2.length ≤ 1 := by
  refine ⟨runTicker_emits len dts e0, ?_, ?_⟩
  · rw [runTicker_emits len dts e0]
    have hs : List.Sorted (· ≤ ·)
        ((prefixSums e0 dts).map (fun e => e / MS_PER_STEP)) :=
      (sorted_prefixSums dts e0).map _ fun a b hab => Nat.div_le_div_right hab
    exact hs.filter _
  · intro len2 e dt
    unfold tickerTick
    dsimp only
    split_ifs <;> simp

/-- Helper: if `stepForward` emits the completion callback, the cursor
has just reached the end of the sequence. -/
theorem done_mem_stepForward (s : RepState)
    (h : Ev.done ∈ (Replayer.stepForward s).2) :
    (Replayer.stepForward s).1.cursor = Replayer.length (Replayer.stepForward s).1 := by
  unfold Replayer.stepForward at h ⊢
  dsimp only at h ⊢
  split_ifs at h ⊢ with h1 h2 h3
  · simp at h
  · obtain ⟨hc, _⟩ := h3
    simpa [Replayer.length] using hc
  · simp at h
  · simp at h

/-- Helper: if a clock tick emits the completion callback, the cursor has
just reached the end of the sequence. -/
theorem done_mem_tick (dt : Nat) (s : RepState)
    (h : Ev.done ∈ (Replayer.tick dt s).2) :
    (Replayer.tick dt s).1.cursor = Replayer.length (Replayer.tick dt s).1 := by
  unfold Replayer.tick at h ⊢
  dsimp only at h ⊢
  split_ifs at h ⊢ with h1 h2
  · simp at h
  · obtain ⟨hc, _⟩ := h2
    simpa [Replayer.length] using hc
  · exact absurd h (Replayer.done_not_mem_emitFrames _ _)

/-- Claim C6 (Timeline Player modelled from the spec): for every frame
sequence, (a) continuous play from the start over one coalesced tick of
`msPerStep · N` milliseconds emits the frame callbacks `0 .. N-1` in
order followed by exactly one completion callback; (b) over any sequence
of operations whatsoever the completion callback fires at most once;
(c) `pause()` and `stop()` never emit any callback, in particular never
the completion callback; (d) any emitted completion callback happens
exactly when the cursor reaches the sequence length, and only through
`stepForward` or a clock tick of continuous play. -/
theorem c6_completion_exactly_once (states : List FuzzyStateWithLine) :
    (Replayer.runOps (Replayer.init states)
        [.start, .tick (DEFAULT_STEP_TIME * states.length)]).2 =
      (List.range states.length).map Ev.frame ++ [Ev.done] ∧
    (∀ ops : List Replayer.Op,
      Replayer.countDone (Replayer.runOps (Replayer.init states) ops).2 ≤ 1) ∧
    (∀ s : RepState, (Replayer.pause s).2 = [] ∧ (Replayer.stop s).2 = []) ∧
    (∀ (s : RepState) (op : Replayer.Op), Ev.done ∈ (Replayer.applyOp op s).2 →
      (Replayer.applyOp op s).1.cursor =
        Replayer.length (Replayer.applyOp op s).1 ∧
      (op = .stepForward ∨ ∃ dt, op = .tick dt)) := by
  refine ⟨?_, ?_, ?_, ?_⟩
  · have hdiv : DEFAULT_STEP_TIME * states.length / DEFAULT_STEP_TIME =
        states.length :=
      Nat.mul_div_cancel_left _ (by norm_num [DEFAULT_STEP_TIME])
    have h1 : Replayer.start (Replayer.init states) =
        (⟨states, 0, true, false, false, 0, 0⟩, []) := rfl
    have h2 : Replayer.tick (DEFAULT_STEP_TIME * states.length)
        ⟨states, 0, true, false, false, 0, 0⟩ =
        (⟨states, states.length, false, false, true, 0,
            DEFAULT_STEP_TIME * states.length⟩,
          Replayer.emitFrames 0 states.length ++ [Ev.done]) := by
      unfold Replayer.tick
      simp [Replayer.length, hdiv]
    simp only [Replayer.runOps, Replayer.applyOp]
    rw [h1]
    dsimp only
    rw [h2]
    simp [Replayer.emitFrames, List.range_eq_range' states.length]
  · intro ops
    rw [Replayer.countDone_runOps]
    split_ifs <;> omega
  · intro s
    constructor
    · unfold Replayer.pause
      split_ifs <;> rfl
    · rfl
  · intro s op h
    cases op with
    | start =>
      simp only [Replayer.applyOp, Replayer.start] at h
      split_ifs at h <;> simp at h
    | pause =>
      simp only [Replayer.applyOp, Replayer.pause] at h
      split_ifs at h <;> simp at h
    | stop =>
      simp only [Replayer.applyOp, Replayer.stop] at h
      simp at h
    | stepBackward =>
      simp only [Replayer.applyOp, Replayer.stepBackward] at h
      split_ifs at h <;> simp at h
    | stepForward =>
      exact ⟨done_mem_stepForward s h, Or.inl rfl⟩
    | tick dt =>
      exact ⟨done_mem_tick dt s h, Or.inr ⟨dt, rfl⟩⟩

/-- Witness for C6: a one-frame sequence played continuously emits the
frame callback for index 0 followed by exactly one completion callback. -/
theorem c6_completion_exactly_once_witness :
    (Replayer.runOps (Replayer.init [⟨0, none⟩])
        [.start, .tick (DEFAULT_STEP_TIME * 1)]).2 = [Ev.frame 0, Ev.done] := by
  have h := (c6_completion_exactly_once [⟨0, none⟩]).1
  simpa using h

end Elara
